import Mathlib

/-!
Verification of the iShortcuts scraper repository.

This file is a shallow embedding of the crawl-and-normalize core of the
repository (src/scraper.py, src/advanced_scraper.py, src/simple_scraper.py,
src/config.py) together with theorems settling the specification claims.

Modelling conventions:
* URLs and markup are `String`s, as in the source.
* Network I/O is an oracle `fetchRes : Nat → Option String` giving the result
  of the i-th `fetch_page` call of a run (`none` models an exception-driven
  `None` return, `some s` a successful fetch returning body `s`).
* HTML parsing (BeautifulSoup) is abstracted by oracles: `titleOf` stands for
  `extract_title`/`find('h1')`, `rawLinks` for the raw anchor scan inside
  `extract_toc_links`/`extract_navigation_links` (the visited-set filtering
  that those functions perform themselves is modelled explicitly), and `mdOf`
  for the extract-and-convert content pipeline, which never influences the
  control flow of the crawl loop.
* Observable actions of a run (HTTP fetches, visited-set insertions, page
  acceptances, `time.sleep(1)` calls) are recorded as an event trace.
* Python machine behaviour modelled: `if not html` is true for both `None`
  and the empty string; `re` character classes are modelled over ASCII
  (`\w` = letter/digit/underscore).
-/

/-! ## Slug function (scraper.py lines 443-448, advanced_scraper.py 834-839,
simple_scraper.py 166-171; the three sources are textually identical). -/

/-- Python `\w` (ASCII): letter, digit or underscore. -/
def pyWordChar (c : Char) : Bool := c.isAlphanum || c == '_'

/-- Characters kept by `re.sub(r'[^\w\s-]', '', text)`. -/
def slugKeep (c : Char) : Bool := pyWordChar c || c.isWhitespace || c == '-'

/-- Characters matched by the class `[-\s]` of `re.sub(r'[-\s]+', '-', text)`. -/
def slugSep (c : Char) : Bool := c.isWhitespace || c == '-'

/-- `re.sub(r'[-\s]+', '-', text)`: each maximal run of separator characters
becomes one hyphen.  The boolean flag records whether we are inside a run. -/
def collapseSep : Bool → List Char → List Char
  | _, [] => []
  | inRun, c :: r =>
    if slugSep c then
      if inRun then collapseSep true r else '-' :: collapseSep true r
    else
      c :: collapseSep false r

/-- Remove trailing hyphens. -/
def dropDashEnd (l : List Char) : List Char :=
  (l.reverse.dropWhile (· == '-')).reverse

/-- Python `str.strip('-')`. -/
def stripDash (l : List Char) : List Char :=
  dropDashEnd (l.dropWhile (· == '-'))

/-- `AppleShortcutsGuideScraper.slugify` (scraper.py 443-448):
lower, `re.sub(r'[^\w\s-]','')`, `re.sub(r'[-\s]+','-')`, `strip('-')`. -/
def slugify_scraper (s : String) : String :=
  ⟨stripDash (collapseSep false ((s.data.map Char.toLower).filter slugKeep))⟩

/-- `AppleShortcutsAdvancedScraper.slugify` (advanced_scraper.py 834-839),
textually identical to the scraper.py version. -/
def slugify_advanced (s : String) : String :=
  ⟨stripDash (collapseSep false ((s.data.map Char.toLower).filter slugKeep))⟩

/-- `SimpleAppleShortcutsScraper.slugify` (simple_scraper.py 166-171),
textually identical to the scraper.py version. -/
def slugify_simple (s : String) : String :=
  ⟨stripDash (collapseSep false ((s.data.map Char.toLower).filter slugKeep))⟩

/-- Characters kept according to claim C9's words: letters, digits,
whitespace, hyphen — no underscore. -/
def claimKeep (c : Char) : Bool := c.isAlphanum || c.isWhitespace || c == '-'

/-- Claim C9's collapse: only whitespace runs become hyphens; existing
hyphens pass through unchanged. -/
def collapseWs : Bool → List Char → List Char
  | _, [] => []
  | inRun, c :: r =>
    if c.isWhitespace then
      if inRun then collapseWs true r else '-' :: collapseWs true r
    else
      c :: collapseWs false r

/-- The slug function exactly as claim C9 words it: lower-case, strip all
characters outside {letters, digits, whitespace, hyphen}, collapse remaining
whitespace runs to single hyphens, trim leading/trailing hyphens. -/
def slug_spec_C9 (s : String) : String :=
  ⟨stripDash (collapseWs false ((s.data.map Char.toLower).filter claimKeep))⟩

theorem length_dropWhile_le (p : α → Bool) (l : List α) :
    (l.dropWhile p).length ≤ l.length := by
  induction l with
  | nil => simp [List.dropWhile]
  | cons a l ih =>
    by_cases h : p a
    · simp only [List.dropWhile_cons_of_pos h, List.length_cons]
      omega
    · simp [List.dropWhile_cons_of_neg h]

/-- Maximal runs of non-separator characters of a string, in order. -/
def chunks : List Char → List (List Char)
  | [] => []
  | c :: r =>
    if slugSep c then chunks r
    else (c :: r.takeWhile (fun d => !slugSep d)) :: chunks (r.dropWhile (fun d => !slugSep d))
termination_by l => l.length
decreasing_by
  all_goals simp only [List.length_cons]
  all_goals (have h := length_dropWhile_le (fun d => !slugSep d) r; omega)

/-- Join word chunks with single hyphens. -/
def joinDash : List (List Char) → List Char
  | [] => []
  | [g] => g
  | g :: gs => g ++ '-' :: joinDash gs

/-- Modelled from the amended claim C9: the slug of `s` is the list of
maximal runs of non-separator characters of the kept, lower-cased text,
joined by single hyphens (so separator runs collapse and the ends carry no
hyphen). -/
def slug_spec_amended (s : String) : String :=
  ⟨joinDash (chunks ((s.data.map Char.toLower).filter slugKeep))⟩

/-! ## Crawl scheduler embedding

Observable events of a crawl run: each `fetch_page` call (with the truthiness
of its result, i.e. whether the returned markup passed `if not html`), each
insertion into the visited set, each page acceptance, and each `time.sleep(1)`
rate-limiting call. -/

/-- One observable event of a crawl run. -/
inductive Ev where
  | fetch (url : String) (ok : Bool)
  | mark (url : String)
  | accept (idx : Nat) (url : String)
  | sleep1
deriving DecidableEq, Repr

/-- What one iteration of the crawl loop did. -/
inductive IterRec where
  | skipDup (url : String)
  | fetchFail (url : String)
  | accepted (url : String) (idx : Nat)
deriving DecidableEq, Repr

/-- Events emitted by one loop iteration, in program order: a duplicate is
skipped before any fetch; a failed (or empty, by `if not html`) fetch emits
only the fetch; an accepted page fetches, marks the URL visited
(`visited.add(url)`), appends the page, and sleeps one second. -/
def renderIter : IterRec → List Ev
  | .skipDup _ => []
  | .fetchFail u => [.fetch u false]
  | .accepted u i => [.fetch u true, .mark u, .accept i u, .sleep1]

/-- Flat event trace of a list of iterations. -/
def eventsOf (l : List IterRec) : List Ev := l.flatMap renderIter

/-- An entry of the `to_visit` frontier: dict `{'url', 'title', 'level'}`. -/
structure PageTask where
  url : String
  title : String
  level : Nat
deriving DecidableEq, Repr

/-- An entry of `self.pages` in advanced_scraper.py (lines 277-284); the
`html`/`markdown` strings are merged into one abstracted content field. -/
structure Page where
  index : Nat
  url : String
  title : String
  level : Nat
  md : String
deriving DecidableEq, Repr

/-- Oracles abstracting network and HTML parsing for the advanced scraper.
`fetchRes i` is the result of the i-th `fetch_page` call of the run;
`titleOf` abstracts `extract_title`; `mdOf` abstracts
`extract_main_content` + `content_to_markdown`; `rawLinks` abstracts the raw
anchor scan of `AppleDocsNavigator.extract_toc_links` before its
visited-filter. -/
structure AdvOracles where
  fetchRes : Nat → Option String
  titleOf : String → String
  mdOf : String → String
  rawLinks : String → List PageTask

/-- `AppleDocsNavigator.extract_toc_links` (advanced_scraper.py 29-74):
candidate links of the page, dropping any URL already in `self.visited`
(lines 44 and 67). -/
def extract_toc_links (O : AdvOracles) (visited : List String) (html : String) :
    List PageTask :=
  (O.rawLinks html).filter (fun t => !(visited.contains t.url))

/-- Crawl state of `AppleShortcutsAdvancedScraper.scrape_all_pages`:
frontier `to_visit`, `self.navigator.visited`, `self.pages`, `page_count`,
the number of `fetch_page` calls made so far, and the iteration log. -/
structure AdvState where
  toVisit : List PageTask
  visited : List String
  pages : List Page
  pageCount : Nat
  time : Nat
  iters : List IterRec
deriving Repr

/-- One iteration of the `while` loop of `scrape_all_pages`
(advanced_scraper.py 249-299), given the dequeued task and the rest of the
frontier: skip if already visited (253-254); fetch, and on a falsy result
(`None` or `""`) continue (259-261); otherwise mark visited (263), build the
page record with `index = page_count` (277-284), discover links with the
visited-filter applied both inside `extract_toc_links` and at enqueue time
(290-293), append them at the tail, increment `page_count`, and sleep (299). -/
def scrape_iter (O : AdvOracles) (s : AdvState) (task : PageTask)
    (rest : List PageTask) : AdvState :=
  if s.visited.contains task.url then
    { s with toVisit := rest, iters := s.iters ++ [.skipDup task.url] }
  else
    match O.fetchRes s.time with
    | none =>
      { s with toVisit := rest, time := s.time + 1,
               iters := s.iters ++ [.fetchFail task.url] }
    | some html =>
      if html = "" then
        { s with toVisit := rest, time := s.time + 1,
                 iters := s.iters ++ [.fetchFail task.url] }
      else
        let visited' := task.url :: s.visited
        let page : Page :=
          ⟨s.pageCount, task.url, O.titleOf html, task.level, O.mdOf html⟩
        let newLinks := extract_toc_links O visited' html
        let enq := newLinks.filter (fun t => !(visited'.contains t.url))
        { toVisit := rest ++ enq,
          visited := visited',
          pages := s.pages ++ [page],
          pageCount := s.pageCount + 1,
          time := s.time + 1,
          iters := s.iters ++ [.accepted task.url s.pageCount] }

/-- The crawl loop of `scrape_all_pages` (advanced_scraper.py 249):
`while to_visit and page_count < max_pages`, fuelled to stay total. -/
def scrape_all_pages (O : AdvOracles) (max_pages : Nat) :
    Nat → AdvState → AdvState
  | 0, s => s
  | fuel + 1, s =>
    match s.toVisit with
    | [] => s
    | task :: rest =>
      if s.pageCount < max_pages then
        scrape_all_pages O max_pages fuel (scrape_iter O s task rest)
      else s

/-- Initial crawl state (advanced_scraper.py 245-246): the frontier is seeded
with exactly one task for the base URL, titled "Welcome", level 0. -/
def advInit (baseUrl : String) : AdvState :=
  ⟨[⟨baseUrl, "Welcome", 0⟩], [], [], 0, 0, []⟩

/-- A whole crawl run of the advanced scraper. -/
def advRun (O : AdvOracles) (max_pages fuel : Nat) (baseUrl : String) : AdvState :=
  scrape_all_pages O max_pages fuel (advInit baseUrl)

/-- Event trace of a crawl state. -/
def events (s : AdvState) : List Ev := eventsOf s.iters

/-! ## scraper.py crawl loop (`AppleShortcutsGuideScraper.scrape_guide`) -/

/-- Oracles for the scraper.py variant: `h1Of` abstracts `soup.find('h1')`
(`none` when the page has no h1), `rawNavLinks` the raw anchor scan of
`extract_navigation_links` before its visited-filter, and `mdOf html title`
the `extract_main_content` + `html_to_markdown(content, title)` pipeline. -/
structure GuideOracles where
  fetchRes : Nat → Option String
  h1Of : String → Option String
  mdOf : String → String → String
  rawNavLinks : String → List PageTask

/-- An entry of `self.pages` in scraper.py (lines 323-330); `filename` is an
output-plumbing detail and is not modelled. -/
structure GuidePage where
  index : Nat
  url : String
  title : String
  level : Nat
  content : String
deriving DecidableEq, Repr

/-- Crawl state of `scrape_guide`: frontier, `self.visited_urls`,
`self.pages`, `page_index`, fetch-call counter and iteration log. -/
structure GuideState where
  toVisit : List PageTask
  visited : List String
  pages : List GuidePage
  pageIndex : Nat
  time : Nat
  iters : List IterRec
deriving Repr

/-- `extract_navigation_links` (scraper.py 117-160): candidate links of the
page, dropping any URL already in `self.visited_urls` (lines 141, 153). -/
def extract_navigation_links (O : GuideOracles) (visited : List String)
    (html : String) : List PageTask :=
  (O.rawNavLinks html).filter (fun t => !(visited.contains t.url))

/-- One iteration of the `while to_visit` loop of `scrape_guide`
(scraper.py 290-342): skip if visited (294-295); fetch and continue on a
falsy result (300-303); mark visited (305); resolve the title from the h1
when the task title is empty or "Welcome" (309-313); append the page with
`index = page_index` (323-330); enqueue the discovered links that are not
visited (333-336); increment `page_index` and sleep (338, 342). -/
def guide_iter (O : GuideOracles) (s : GuideState) (task : PageTask)
    (rest : List PageTask) : GuideState :=
  if s.visited.contains task.url then
    { s with toVisit := rest, iters := s.iters ++ [.skipDup task.url] }
  else
    match O.fetchRes s.time with
    | none =>
      { s with toVisit := rest, time := s.time + 1,
               iters := s.iters ++ [.fetchFail task.url] }
    | some html =>
      if html = "" then
        { s with toVisit := rest, time := s.time + 1,
                 iters := s.iters ++ [.fetchFail task.url] }
      else
        let visited' := task.url :: s.visited
        let title :=
          if task.title = "" || task.title = "Welcome" then
            match O.h1Of html with
            | some t => t
            | none => task.title
          else task.title
        let page : GuidePage :=
          ⟨s.pageIndex, task.url, title, task.level, O.mdOf html title⟩
        let newLinks := extract_navigation_links O visited' html
        let enq := newLinks.filter (fun t => !(visited'.contains t.url))
        { toVisit := rest ++ enq,
          visited := visited',
          pages := s.pages ++ [page],
          pageIndex := s.pageIndex + 1,
          time := s.time + 1,
          iters := s.iters ++ [.accepted task.url s.pageIndex] }

/-- The `while to_visit` loop of `scrape_guide` (scraper.py 290), fuelled;
this variant has no page budget. -/
def scrape_guide (O : GuideOracles) : Nat → GuideState → GuideState
  | 0, s => s
  | fuel + 1, s =>
    match s.toVisit with
    | [] => s
    | task :: rest => scrape_guide O fuel (guide_iter O s task rest)

/-- Initial state of `scrape_guide` (scraper.py 286-287). -/
def guideInit (baseUrl : String) : GuideState :=
  ⟨[⟨baseUrl, "Welcome", 0⟩], [], [], 0, 0, []⟩

/-- A whole `scrape_guide` run. -/
def guideRun (O : GuideOracles) (fuel : Nat) (baseUrl : String) : GuideState :=
  scrape_guide O fuel (guideInit baseUrl)

/-- The table-of-contents entries written by `compile_markdown`
(scraper.py 358-360): one `(level, title, anchor)` entry per page of
`self.pages`, the anchor being `self.slugify(page['title'])`. -/
def toc_entries (pages : List GuidePage) : List (Nat × String × String) :=
  pages.map (fun p => (p.level, p.title, slugify_scraper p.title))

/-! ## Fetcher retry policy (`AppleShortcutsAdvancedScraper.fetch_page`,
advanced_scraper.py 107-119) -/

/-- Observable fetch events: one HTTP attempt (`session.get`), or one
exponential-backoff sleep of the given number of seconds. -/
inductive FEv where
  | attempt (i : Nat)
  | backoff (secs : Nat)
deriving DecidableEq, Repr

/-- The `for attempt in range(max_retries)` loop of `fetch_page`:
`res a` is the outcome of HTTP attempt number `a` (`none` = exception).
On an exception, if `attempt == max_retries - 1` the function returns `None`
(lines 115-117), otherwise it sleeps `2 ** attempt` seconds (line 118) and
retries.  `remaining` counts the loop iterations left; the final
`return None` (line 119) is the `remaining = 0` case. -/
def fetch_page_aux (res : Nat → Option String) (max_retries : Nat) :
    Nat → Nat → List FEv × Option String
  | 0, _ => ([], none)
  | remaining + 1, a =>
    match res a with
    | some t => ([.attempt a], some t)
    | none =>
      if a = max_retries - 1 then ([.attempt a], none)
      else
        let p := fetch_page_aux res max_retries remaining (a + 1)
        (.attempt a :: .backoff (2 ^ a) :: p.1, p.2)

/-- `fetch_page(url, max_retries)` of the advanced scraper, as a function of
the per-attempt outcome oracle: returns the trace of attempts and backoff
sleeps together with the final result. -/
def fetch_page (res : Nat → Option String) (max_retries : Nat) :
    List FEv × Option String :=
  fetch_page_aux res max_retries max_retries 0

/-- The attempt/backoff trace claim C5 predicts for a URL all of whose
attempts fail: attempts `a, a+1, ...` with a `2 ^ attempt`-second backoff
between consecutive attempts and none after the last. -/
def retryTrace (max_retries : Nat) : Nat → Nat → List FEv
  | 0, _ => []
  | remaining + 1, a =>
    if a = max_retries - 1 then [.attempt a]
    else .attempt a :: .backoff (2 ^ a) :: retryTrace max_retries remaining (a + 1)

/-! ## Document normalizer (`content_to_markdown`, advanced_scraper.py
195-238; scraper.py's `html_to_markdown` 219-262 is the same pass structure)

The cleaned content tree handed over by `extract_main_content` is modelled as
an HTML element tree.  `get_text(strip=True)` is modelled as concatenating
the text descendants and trimming the result. -/

/-- A parsed HTML node: an element with a tag and children, or a text node. -/
inductive HtmlNode where
  | elem (tag : String) (children : List HtmlNode)
  | txt (s : String)
deriving Repr

mutual

/-- Concatenated text content of a node (BeautifulSoup `get_text`). -/
def textOf : HtmlNode → String
  | .txt s => s
  | .elem _ cs => textOfList cs

/-- Concatenated text content of a list of nodes. -/
def textOfList : List HtmlNode → String
  | [] => ""
  | n :: r => textOf n ++ textOfList r

end

/-- Python `str.strip()`: drop leading and trailing whitespace. -/
def pyStrip (s : String) : String :=
  ⟨((s.data.dropWhile Char.isWhitespace).reverse.dropWhile Char.isWhitespace).reverse⟩

/-- `get_text(strip=True)`. -/
def getTextStrip (n : HtmlNode) : String := pyStrip (textOf n)

mutual

/-- All descendant elements of the nodes in the list whose tag is in `tags`,
in document (pre-)order: BeautifulSoup `find_all`. -/
def findAllList (tags : List String) : List HtmlNode → List HtmlNode
  | [] => []
  | n :: r => findAllFrom tags n ++ findAllList tags r

/-- The node itself (if it is an element with a matching tag) followed by its
matching descendants. -/
def findAllFrom (tags : List String) : HtmlNode → List HtmlNode
  | .txt _ => []
  | .elem t cs =>
    (if tags.contains t then [HtmlNode.elem t cs] else []) ++ findAllList tags cs

end

/-- `root.find_all(tag)`: matching strict descendants of `root`. -/
def findAll (tag : String) (root : HtmlNode) : List HtmlNode :=
  match root with
  | .txt _ => []
  | .elem _ cs => findAllList [tag] cs

/-- `root.find_all([t1, t2])` over several tags, single pass in document
order. -/
def findAllAny (tags : List String) (root : HtmlNode) : List HtmlNode :=
  match root with
  | .txt _ => []
  | .elem _ cs => findAllList tags cs

/-- `elem.find_all('li', recursive=False)`: direct children only. -/
def directChildren (tag : String) (n : HtmlNode) : List HtmlNode :=
  match n with
  | .txt _ => []
  | .elem _ cs =>
    cs.filter (fun c => match c with
      | .elem t _ => t == tag
      | .txt _ => false)

/-- Python `enumerate(items, start)`. -/
def enumFrom : Nat → List HtmlNode → List (Nat × HtmlNode)
  | _, [] => []
  | i, n :: r => (i, n) :: enumFrom (i + 1) r

/-- One normalized content block of the intermediate document model. -/
inductive ContentBlock where
  | heading (level : Nat) (text : String)
  | para (text : String)
  | item (ordinal : Option Nat) (text : String)
  | codeB (text : String)
deriving DecidableEq, Repr

/-- `content_to_markdown(content, title)` (advanced_scraper.py 195-238), at
the level of the blocks it emits, in emission order: the optional `# title`
line; one pass per heading level 2..6; a pass over paragraphs dropping those
whose stripped text is empty (212-215); a pass per unordered list taking only
direct `li` children, with no ordinal (218-222); a pass per ordered list
numbering direct `li` children from 1 (224-228); a pass over `pre`/`code`
regions (231-236). -/
def headingTag : Nat → String
  | 2 => "h2"
  | 3 => "h3"
  | 4 => "h4"
  | 5 => "h5"
  | 6 => "h6"
  | n => "h" ++ toString n

def content_to_markdown (content : HtmlNode) (title : String) : List ContentBlock :=
  (if title = "" then [] else [.heading 1 title]) ++
  ((List.range' 2 5).flatMap (fun lvl =>
    (findAll (headingTag lvl) content).map
      (fun h => ContentBlock.heading lvl (getTextStrip h)))) ++
  ((findAll "p" content).filterMap (fun p =>
    let t := getTextStrip p
    if t = "" then none else some (ContentBlock.para t))) ++
  ((findAll "ul" content).flatMap (fun ul =>
    (directChildren "li" ul).map (fun li => ContentBlock.item none (getTextStrip li)))) ++
  ((findAll "ol" content).flatMap (fun ol =>
    ((enumFrom 1 (directChildren "li" ol)).map
      (fun p => ContentBlock.item (some p.1) (getTextStrip p.2))))) ++
  ((findAllAny ["pre", "code"] content).map (fun c => ContentBlock.codeB (textOf c)))

/-! ## Trace predicates used to state the claims -/

/-- Number of `fetch` events for `url` in a trace, successful or not. -/
def countFetchAll (url : String) (evs : List Ev) : Nat :=
  evs.countP (fun e => match e with
    | .fetch u _ => u == url
    | _ => false)

/-- Does this event record a truthy fetch of `url`? -/
def isSuccessFetchOf (url : String) : Ev → Bool
  | .fetch u true => u == url
  | _ => false

/-- Claim C3 as stated: every fetch in the trace happens at a moment when the
fetched URL is already marked visited.  `m` accumulates the URLs marked so
far. -/
def markedBeforeFetch (m : List String) : List Ev → Bool
  | [] => true
  | .fetch u _ :: r => m.contains u && markedBeforeFetch m r
  | .mark u :: r => markedBeforeFetch (u :: m) r
  | _ :: r => markedBeforeFetch m r

/-- Every fetch in the trace happens at a moment when the fetched URL is NOT
yet marked visited. -/
def fetchUnvisited (m : List String) : List Ev → Bool
  | [] => true
  | .fetch u _ :: r => !(m.contains u) && fetchUnvisited m r
  | .mark u :: r => fetchUnvisited (u :: m) r
  | _ :: r => fetchUnvisited m r

/-- URLs marked visited in the trace, most recent first, on top of `m`. -/
def marksOf (m : List String) : List Ev → List String
  | [] => m
  | .mark u :: r => marksOf (u :: m) r
  | _ :: r => marksOf m r

/-- Every truthy fetch is immediately followed by the visited-mark of the
same URL. -/
def fetchThenMark : List Ev → Bool
  | [] => true
  | .fetch u true :: .mark v :: r => u == v && fetchThenMark r
  | .fetch _ true :: _ => false
  | _ :: r => fetchThenMark r

/-- True when the first fetch event of the trace, if any, is preceded by a
sleep. -/
def sleepBeforeNextFetch : List Ev → Bool
  | [] => true
  | .sleep1 :: _ => true
  | .fetch _ _ :: _ => false
  | _ :: r => sleepBeforeNextFetch r

/-- Claim C4 as stated: after EVERY fetch attempt (successful or failed), a
sleep occurs before the next fetch attempt. -/
def delayBeforeEveryNextFetch : List Ev → Bool
  | [] => true
  | .fetch _ _ :: r => sleepBeforeNextFetch r && delayBeforeEveryNextFetch r
  | _ :: r => delayBeforeEveryNextFetch r

/-- After every truthy (accepted) fetch, a sleep occurs before the next
fetch. -/
def delayAfterAcceptedFetch : List Ev → Bool
  | [] => true
  | .fetch _ true :: r => sleepBeforeNextFetch r && delayAfterAcceptedFetch r
  | _ :: r => delayAfterAcceptedFetch r

/-! ## Concrete crawl scenarios -/

/-- Scenario for C3: the base page "s" fetches successfully and links to
nothing. -/
def oracleSingle : AdvOracles :=
  { fetchRes := fun i => if i = 0 then some "s" else none
    titleOf := fun h => h
    mdOf := fun _ => ""
    rawLinks := fun _ => [] }

/-- The single-page run. -/
def runSingle : AdvState := advRun oracleSingle 10 10 "s"

/-- Scenario for C1/C10: seed "s" links to "a" and "b"; the first fetch of
"a" fails; "b" succeeds and links to "a" again; the second fetch of "a"
succeeds. -/
def oracleRefetch : AdvOracles :=
  { fetchRes := fun i =>
      if i = 0 then some "s" else
      if i = 1 then none else
      if i = 2 then some "b" else
      if i = 3 then some "a" else none
    titleOf := fun h => h
    mdOf := fun _ => ""
    rawLinks := fun h =>
      if h = "s" then [⟨"a", "A", 1⟩, ⟨"b", "B", 1⟩] else
      if h = "b" then [⟨"a", "A", 1⟩] else [] }

/-- The refetch run. -/
def runRefetch : AdvState := advRun oracleRefetch 10 10 "s"

/-- Scenario for C4: seed "s" links to "a" and "b"; the fetch of "a" fails,
so the loop proceeds to fetch "b" without any sleep in between. -/
def oracleNoDelay : AdvOracles :=
  { fetchRes := fun i =>
      if i = 0 then some "s" else
      if i = 1 then none else
      if i = 2 then some "b" else none
    titleOf := fun h => h
    mdOf := fun _ => ""
    rawLinks := fun h => if h = "s" then [⟨"a", "A", 1⟩, ⟨"b", "B", 1⟩] else [] }

/-- The no-delay-after-failure run. -/
def runNoDelay : AdvState := advRun oracleNoDelay 10 10 "s"

/-- Scenario for C7: seed "s" links to "a" and "b", "a" links to "c", page
budget exactly 3. -/
def oracleBfs : AdvOracles :=
  { fetchRes := fun i =>
      if i = 0 then some "s" else
      if i = 1 then some "a" else
      if i = 2 then some "b" else none
    titleOf := fun h => h
    mdOf := fun _ => ""
    rawLinks := fun h =>
      if h = "s" then [⟨"a", "A", 1⟩, ⟨"b", "B", 1⟩] else
      if h = "a" then [⟨"c", "C", 2⟩] else [] }

/-- The breadth-first budget-3 run. -/
def runBfs : AdvState := advRun oracleBfs 3 10 "s"

/-- Scenario for C6 (scraper.py loop): the fetch of the base URL SUCCEEDS
but returns empty markup. -/
def oracleEmptyMarkup : GuideOracles :=
  { fetchRes := fun i => if i = 0 then some "" else none
    h1Of := fun _ => none
    mdOf := fun _ _ => ""
    rawNavLinks := fun _ => [] }

/-- The empty-markup run. -/
def runEmptyMarkup : GuideState := guideRun oracleEmptyMarkup 5 "root"

/-- Contrast scenario for C6: the fetch returns non-empty markup whose
extraction yields no content at all (empty markdown). -/
def oracleEmptyContent : GuideOracles :=
  { fetchRes := fun i => if i = 0 then some "<html></html>" else none
    h1Of := fun _ => some "T"
    mdOf := fun _ _ => ""
    rawNavLinks := fun _ => [] }

/-- The empty-content run. -/
def runEmptyContent : GuideState := guideRun oracleEmptyContent 5 "root"

example : runSingle.pages.map (fun p => p.url) = ["s"] := by decide
example : runRefetch.pages.map (fun p => p.url) = ["s", "b", "a"] := by decide
example : countFetchAll "a" (events runRefetch) = 2 := by decide
example : runBfs.pages.map (fun p => p.url) = ["s", "a", "b"] := by decide
example : runBfs.toVisit.map (fun t => t.url) = ["c"] := by decide
example : delayBeforeEveryNextFetch (events runNoDelay) = false := by decide
example : markedBeforeFetch [] (events runSingle) = false := by decide
example : runEmptyMarkup.pages = [] := by decide
example : runEmptyContent.pages =
    [⟨0, "root", "T", 0, ""⟩] := by decide

/-! ## Run invariants of the advanced crawl loop -/

theorem scrape_all_pages_preserve (O : AdvOracles) (mp : Nat)
    (P : AdvState → Prop)
    (hstep : ∀ s task rest, P s → P (scrape_iter O s task rest)) :
    ∀ fuel s, P s → P (scrape_all_pages O mp fuel s) := by
  intro fuel
  induction fuel with
  | zero => intro s h; exact h
  | succ n ih =>
    intro s h
    rw [scrape_all_pages]
    split
    · exact h
    · split
      · exact ih _ (hstep _ _ _ h)
      · exact h

theorem eventsOf_append (a b : List IterRec) :
    eventsOf (a ++ b) = eventsOf a ++ eventsOf b := by
  simp [eventsOf]

/-- Page indices equal positions: `pages.map index = range pages.length`,
with `page_count` tracking the length. -/
def pagesIndexInv (s : AdvState) : Prop :=
  s.pages.map (fun p => p.index) = List.range s.pages.length ∧
  s.pageCount = s.pages.length

theorem scrape_iter_pagesIndexInv (O : AdvOracles) (s : AdvState)
    (task : PageTask) (rest : List PageTask) (h : pagesIndexInv s) :
    pagesIndexInv (scrape_iter O s task rest) := by
  obtain ⟨h1, h2⟩ := h
  unfold scrape_iter
  split
  · exact ⟨h1, h2⟩
  · split
    · exact ⟨h1, h2⟩
    · split
      · exact ⟨h1, h2⟩
      · refine ⟨?_, ?_⟩
        · simp only [List.map_append, List.length_append, List.map_cons,
            List.map_nil, List.length_cons, List.length_nil]
          rw [h1, h2, List.range_succ]
        · simp [h2]

/-- Visited-set invariant: no duplicates; each URL has exactly one truthy
fetch event iff it is visited; every collected page's URL is visited. -/
def visitInv (s : AdvState) : Prop :=
  s.visited.Nodup ∧
  (∀ url, (events s).countP (isSuccessFetchOf url) =
    if url ∈ s.visited then 1 else 0) ∧
  (∀ url, url ∈ s.pages.map (fun p => p.url) → url ∈ s.visited)

theorem scrape_iter_visitInv (O : AdvOracles) (s : AdvState)
    (task : PageTask) (rest : List PageTask) (h : visitInv s) :
    visitInv (scrape_iter O s task rest) := by
  obtain ⟨hnd, hcnt, hpv⟩ := h
  unfold scrape_iter
  split
  · refine ⟨hnd, ?_, hpv⟩
    intro url
    simpa [events, eventsOf, renderIter] using hcnt url
  · rename_i hdup
    have hmem : task.url ∉ s.visited := by
      simpa [List.contains, List.elem_eq_mem] using hdup
    split
    · refine ⟨hnd, ?_, hpv⟩
      intro url
      simp only [events, eventsOf, List.flatMap_append] at hcnt ⊢
      simp [List.countP_append, isSuccessFetchOf, renderIter, hcnt url]
    · next html heq =>
      split
      · refine ⟨hnd, ?_, hpv⟩
        intro url
        simp only [events, eventsOf, List.flatMap_append] at hcnt ⊢
        simp [List.countP_append, isSuccessFetchOf, renderIter, hcnt url]
      · next hne =>
        refine ⟨?_, ?_, ?_⟩
        · exact List.Nodup.cons hmem hnd
        · intro url
          show List.countP (isSuccessFetchOf url)
              (eventsOf (s.iters ++ [.accepted task.url s.pageCount])) =
            if url ∈ task.url :: s.visited then 1 else 0
          rw [eventsOf_append, List.countP_append]
          rw [show eventsOf s.iters = events s from rfl, hcnt url]
          by_cases hu : url = task.url
          · subst hu
            simp [eventsOf, renderIter, List.countP_cons, isSuccessFetchOf, hmem]
          · have hb : (task.url == url) = false := by
              simp [Ne.symm hu]
            simp [eventsOf, renderIter, List.countP_cons, isSuccessFetchOf, hb, hu]
        · intro url hurl
          have hurl2 : url ∈ List.map (fun p => p.url) s.pages ∨ url = task.url := by
            simpa [List.map_append, List.mem_append] using hurl
          rcases hurl2 with hurl2 | hurl2
          · exact List.mem_cons_of_mem _ (hpv url hurl2)
          · subst hurl2
            exact List.mem_cons_self _ _

theorem marksOf_append (m : List String) (a b : List Ev) :
    marksOf m (a ++ b) = marksOf (marksOf m a) b := by
  induction a generalizing m with
  | nil => simp [marksOf]
  | cons e r ih =>
    cases e <;> simp [marksOf, ih]

theorem fetchUnvisited_append (m : List String) (a b : List Ev) :
    fetchUnvisited m (a ++ b) =
      (fetchUnvisited m a && fetchUnvisited (marksOf m a) b) := by
  induction a generalizing m with
  | nil => simp [fetchUnvisited, marksOf]
  | cons e r ih =>
    cases e <;> simp [fetchUnvisited, marksOf, ih, Bool.and_assoc]

/-- No URL is ever fetched while already visited, and the marks recorded in
the trace are exactly the visited set. -/
def unvisitedInv (s : AdvState) : Prop :=
  fetchUnvisited [] (events s) = true ∧ marksOf [] (events s) = s.visited

theorem eventsOf_cons (it : IterRec) (r : List IterRec) :
    eventsOf (it :: r) = renderIter it ++ eventsOf r := rfl

theorem scrape_iter_unvisitedInv (O : AdvOracles) (s : AdvState)
    (task : PageTask) (rest : List PageTask) (h : unvisitedInv s) :
    unvisitedInv (scrape_iter O s task rest) := by
  obtain ⟨hfu, hmk⟩ := h
  unfold scrape_iter
  split
  · exact ⟨by simpa [events, eventsOf, renderIter] using hfu,
      by simpa [events, eventsOf, renderIter] using hmk⟩
  · rename_i hdup
    have hmem : task.url ∉ s.visited := by
      simpa [List.contains, List.elem_eq_mem] using hdup
    split
    · constructor
      · show fetchUnvisited [] (eventsOf (s.iters ++ [.fetchFail task.url])) = true
        rw [eventsOf_append, fetchUnvisited_append]
        rw [show eventsOf s.iters = events s from rfl, hfu, hmk]
        simp [eventsOf, renderIter, fetchUnvisited, hmem]
      · show marksOf [] (eventsOf (s.iters ++ [.fetchFail task.url])) = s.visited
        rw [eventsOf_append, marksOf_append]
        rw [show eventsOf s.iters = events s from rfl, hmk]
        simp [eventsOf, renderIter, marksOf]
    · split
      · constructor
        · show fetchUnvisited [] (eventsOf (s.iters ++ [.fetchFail task.url])) = true
          rw [eventsOf_append, fetchUnvisited_append]
          rw [show eventsOf s.iters = events s from rfl, hfu, hmk]
          simp [eventsOf, renderIter, fetchUnvisited, hmem]
        · show marksOf [] (eventsOf (s.iters ++ [.fetchFail task.url])) = s.visited
          rw [eventsOf_append, marksOf_append]
          rw [show eventsOf s.iters = events s from rfl, hmk]
          simp [eventsOf, renderIter, marksOf]
      · constructor
        · show fetchUnvisited []
              (eventsOf (s.iters ++ [.accepted task.url s.pageCount])) = true
          rw [eventsOf_append, fetchUnvisited_append]
          rw [show eventsOf s.iters = events s from rfl, hfu, hmk]
          simp [eventsOf, renderIter, fetchUnvisited, hmem]
        · show marksOf []
              (eventsOf (s.iters ++ [.accepted task.url s.pageCount])) =
            task.url :: s.visited
          rw [eventsOf_append, marksOf_append]
          rw [show eventsOf s.iters = events s from rfl, hmk]
          simp [eventsOf, renderIter, marksOf]

theorem fetchThenMark_eventsOf (l : List IterRec) :
    fetchThenMark (eventsOf l) = true := by
  induction l with
  | nil => rfl
  | cons it r ih =>
    cases it with
    | skipDup u => simpa [eventsOf_cons, renderIter] using ih
    | fetchFail u =>
      rw [eventsOf_cons]
      simp only [renderIter, List.cons_append, List.nil_append]
      rw [show fetchThenMark (Ev.fetch u false :: eventsOf r) =
        fetchThenMark (eventsOf r) from rfl]
      exact ih
    | accepted u i =>
      rw [eventsOf_cons]
      simp only [renderIter, List.cons_append, List.nil_append]
      simp [fetchThenMark, ih]

theorem delayAfterAcceptedFetch_eventsOf (l : List IterRec) :
    delayAfterAcceptedFetch (eventsOf l) = true := by
  induction l with
  | nil => rfl
  | cons it r ih =>
    cases it with
    | skipDup u => simpa [eventsOf_cons, renderIter] using ih
    | fetchFail u =>
      rw [eventsOf_cons]
      simp only [renderIter, List.cons_append, List.nil_append]
      rw [show delayAfterAcceptedFetch (Ev.fetch u false :: eventsOf r) =
        delayAfterAcceptedFetch (eventsOf r) from rfl]
      exact ih
    | accepted u i =>
      rw [eventsOf_cons]
      simp only [renderIter, List.cons_append, List.nil_append]
      simp [delayAfterAcceptedFetch, sleepBeforeNextFetch, ih]

theorem advRun_pagesIndexInv (O : AdvOracles) (mp fuel : Nat) (b : String) :
    pagesIndexInv (advRun O mp fuel b) :=
  scrape_all_pages_preserve O mp pagesIndexInv
    (scrape_iter_pagesIndexInv O) fuel (advInit b) (by simp [pagesIndexInv, advInit])

theorem advRun_visitInv (O : AdvOracles) (mp fuel : Nat) (b : String) :
    visitInv (advRun O mp fuel b) :=
  scrape_all_pages_preserve O mp visitInv
    (scrape_iter_visitInv O) fuel (advInit b)
    (by refine ⟨List.nodup_nil, ?_, ?_⟩ <;> simp [events, advInit, eventsOf])

theorem advRun_unvisitedInv (O : AdvOracles) (mp fuel : Nat) (b : String) :
    unvisitedInv (advRun O mp fuel b) :=
  scrape_all_pages_preserve O mp unvisitedInv
    (scrape_iter_unvisitedInv O) fuel (advInit b)
    (by constructor <;> simp [events, advInit, eventsOf, fetchUnvisited, marksOf])

/-- `isSuccessFetchOf` characterizes exactly the truthy fetch event. -/
theorem isSuccessFetchOf_iff (url : String) (e : Ev) :
    isSuccessFetchOf url e = true ↔ e = Ev.fetch url true := by
  cases e with
  | fetch u ok => cases ok <;> simp [isSuccessFetchOf, Ev.fetch.injEq, eq_comm (a := u)]
  | mark u => simp [isSuccessFetchOf]
  | accept i u => simp [isSuccessFetchOf]
  | sleep1 => simp [isSuccessFetchOf]

/-- A truthy fetch of `url` occurs in a trace iff its success count is
positive. -/
theorem mem_fetch_true_iff_countP (url : String) (evs : List Ev) :
    Ev.fetch url true ∈ evs ↔ 0 < evs.countP (isSuccessFetchOf url) := by
  rw [List.countP_pos_iff]
  constructor
  · intro h
    exact ⟨_, h, by simp [isSuccessFetchOf]⟩
  · rintro ⟨a, ha, hp⟩
    rwa [(isSuccessFetchOf_iff url a).1 hp] at ha

/-! ## Retry behaviour of the advanced fetcher -/

theorem fetch_page_aux_allFail (res : Nat → Option String) (m : Nat)
    (hres : ∀ k, k < m → res k = none) :
    ∀ remaining a, remaining + a = m → a < m →
      fetch_page_aux res m remaining a = (retryTrace m remaining a, none) := by
  intro remaining
  induction remaining with
  | zero =>
    intro a h1 h2
    omega
  | succ rem ih =>
    intro a h1 h2
    simp only [fetch_page_aux, retryTrace]
    rw [hres a h2]
    by_cases he : a = m - 1
    · simp [he]
    · have hrec := ih (a + 1) (by omega) (by omega)
      simp [he, hrec]

theorem fetch_page_allFail (res : Nat → Option String) (m : Nat)
    (hm : 0 < m) (hres : ∀ k, k < m → res k = none) :
    fetch_page res m = (retryTrace m m 0, none) :=
  fetch_page_aux_allFail res m hres m 0 (by omega) hm

/-! ## Equivalence of the regex pipeline with the chunks/join description -/

theorem dropWhile_eq_self_of_not (p : α → Bool) (l : List α)
    (h : ∀ x ∈ l, p x = false) : l.dropWhile p = l := by
  cases l with
  | nil => rfl
  | cons a t =>
    rw [List.dropWhile_cons_of_neg]
    simp [h a (List.mem_cons_self a t)]

theorem dropWhile_head_false (p : α → Bool) : ∀ (l : List α) (d : α) (t : List α),
    l.dropWhile p = d :: t → p d = false := by
  intro l
  induction l with
  | nil =>
    intro d t h
    simp [List.dropWhile] at h
  | cons a r ih =>
    intro d t h
    by_cases ha : p a = true
    · rw [List.dropWhile_cons_of_pos ha] at h
      exact ih d t h
    · rw [List.dropWhile_cons_of_neg ha] at h
      injection h with h1 h2
      subst h1
      simpa using ha

theorem ne_dash_of_not_sep (x : Char) (h : slugSep x = false) : (x == '-') = false := by
  cases hx : x == '-'
  · rfl
  · have hx' : x = '-' := by simpa using hx
    subst hx'
    simp [show slugSep '-' = true from by decide] at h

theorem dropDashEnd_of_no_dash (l : List Char) (h : ∀ x ∈ l, (x == '-') = false) :
    dropDashEnd l = l := by
  unfold dropDashEnd
  rw [dropWhile_eq_self_of_not _ _ (fun x hx => h x (List.mem_reverse.mp hx))]
  exact List.reverse_reverse l

theorem dropDashEnd_ne_nil (e : Char) (he : (e == '-') = false) (z : List Char) :
    dropDashEnd (e :: z) ≠ [] := by
  unfold dropDashEnd
  intro hcon
  have h2 : (e :: z).reverse.dropWhile (· == '-') = [] := by
    simpa using congrArg List.reverse hcon
  rw [List.dropWhile_eq_nil_iff] at h2
  have h3 := h2 e (by simp)
  simp [he] at h3

theorem dropDashEnd_append (A B : List Char) (hB : dropDashEnd B ≠ []) :
    dropDashEnd (A ++ B) = A ++ dropDashEnd B := by
  unfold dropDashEnd at *
  rw [List.reverse_append, List.dropWhile_append]
  have hne : (B.reverse.dropWhile (· == '-')).isEmpty = false := by
    cases hh : B.reverse.dropWhile (· == '-') with
    | nil =>
      exfalso
      apply hB
      rw [hh]
      rfl
    | cons x t => rfl
  rw [if_neg (by simp [hne])]
  rw [List.reverse_append, List.reverse_reverse]

theorem dropDashEnd_append_dash (A : List Char) :
    dropDashEnd (A ++ ['-']) = dropDashEnd A := by
  unfold dropDashEnd
  rw [List.reverse_append]
  simp [List.dropWhile_cons_of_pos]

theorem stripDash_dash_cons (t : List Char) :
    stripDash ('-' :: t) = stripDash t := by
  unfold stripDash
  rw [List.dropWhile_cons_of_pos (by simp)]

theorem stripDash_of_head_ne (x : Char) (hx : (x == '-') = false) (t : List Char) :
    stripDash (x :: t) = dropDashEnd (x :: t) := by
  unfold stripDash
  rw [List.dropWhile_cons_of_neg (by simp [hx])]

theorem collapseSep_true (l : List Char) :
    collapseSep true l = collapseSep false (l.dropWhile slugSep) := by
  induction l with
  | nil => rfl
  | cons c r ih =>
    by_cases hc : slugSep c = true
    · rw [List.dropWhile_cons_of_pos hc]
      simp [collapseSep, hc, ih]
    · rw [List.dropWhile_cons_of_neg hc]
      have hc' : slugSep c = false := by simpa using hc
      simp [collapseSep, hc']

theorem chunks_dropWhile_sep (l : List Char) :
    chunks (l.dropWhile slugSep) = chunks l := by
  induction l with
  | nil => rfl
  | cons c r ih =>
    by_cases hc : slugSep c = true
    · rw [List.dropWhile_cons_of_pos hc, ih]
      conv_rhs => rw [chunks]
      simp [hc]
    · rw [List.dropWhile_cons_of_neg hc]

theorem collapseSep_false_append_word (w r : List Char)
    (h : ∀ x ∈ w, slugSep x = false) :
    collapseSep false (w ++ r) = w ++ collapseSep false r := by
  induction w with
  | nil => rfl
  | cons c t ih =>
    have hc := h c (List.mem_cons_self c t)
    simp [collapseSep, hc, ih (fun x hx => h x (List.mem_cons_of_mem c hx))]

theorem joinDash_cons_of_ne_nil (a : List Char) (t : List (List Char)) (h : t ≠ []) :
    joinDash (a :: t) = a ++ '-' :: joinDash t := by
  cases t with
  | nil => exact absurd rfl h
  | cons g gs => rfl

theorem stripDash_word_append (w X : List Char) (hw : w ≠ [])
    (hwnd : ∀ x ∈ w, (x == '-') = false) :
    stripDash (w ++ X) = dropDashEnd (w ++ X) := by
  cases w with
  | nil => exact absurd rfl hw
  | cons c t =>
    rw [List.cons_append]
    rw [stripDash_of_head_ne c (hwnd c (List.mem_cons_self c t)) (t ++ X)]

theorem stripDash_collapseSep_aux : ∀ (n : Nat) (l : List Char), l.length ≤ n →
    stripDash (collapseSep false l) = joinDash (chunks l) := by
  intro n
  induction n with
  | zero =>
    intro l hl
    have : l = [] := List.length_eq_zero.mp (Nat.le_zero.mp hl)
    subst this
    simp [stripDash, dropDashEnd, collapseSep, chunks, joinDash]
  | succ n ih =>
    intro l hl
    cases l with
    | nil => simp [stripDash, dropDashEnd, collapseSep, chunks, joinDash]
    | cons c r =>
      have hr : r.length ≤ n := by
        simp only [List.length_cons] at hl
        omega
      by_cases hc : slugSep c = true
      · -- separator head: the leading run collapses to one leading dash,
        -- which stripDash removes
        have hcol : collapseSep false (c :: r) =
            '-' :: collapseSep false (r.dropWhile slugSep) := by
          simp [collapseSep, hc, collapseSep_true]
        have hch : chunks (c :: r) = chunks (r.dropWhile slugSep) := by
          rw [chunks_dropWhile_sep r]
          simp [chunks, hc]
        rw [hcol, hch, stripDash_dash_cons]
        exact ih _ (le_trans (length_dropWhile_le slugSep r) hr)
      · -- word head
        have hcw : slugSep c = false := by simpa using hc
        have hcd : (c == '-') = false := ne_dash_of_not_sep c hcw
        have htw : ∀ x ∈ r.takeWhile (fun d => !slugSep d), slugSep x = false := by
          intro x hx
          have := List.mem_takeWhile_imp hx
          simpa using this
        have hwnd : ∀ x ∈ c :: r.takeWhile (fun d => !slugSep d), (x == '-') = false := by
          intro x hx
          rcases List.mem_cons.mp hx with rfl | hx
          · exact hcd
          · exact ne_dash_of_not_sep x (htw x hx)
        have hcol : collapseSep false (c :: r) =
            (c :: r.takeWhile (fun d => !slugSep d)) ++
              collapseSep false (r.dropWhile (fun d => !slugSep d)) := by
          have h0 : collapseSep false (c :: r) = c :: collapseSep false r := by
            simp [collapseSep, hcw]
          rw [h0, List.cons_append]
          congr 1
          conv_lhs => rw [← List.takeWhile_append_dropWhile (p := fun d => !slugSep d) (l := r)]
          exact collapseSep_false_append_word _ _ htw
        have hch : chunks (c :: r) =
            (c :: r.takeWhile (fun d => !slugSep d)) ::
              chunks (r.dropWhile (fun d => !slugSep d)) := by
          simp [chunks, hc]
        rw [hcol, hch]
        rcases hdw : r.dropWhile (fun d => !slugSep d) with _ | ⟨d, r₂⟩
        · -- no separator follows the word
          rw [show collapseSep false [] = ([] : List Char) from rfl, List.append_nil]
          rw [show stripDash (c :: r.takeWhile (fun d => !slugSep d)) =
              dropDashEnd (c :: r.takeWhile (fun d => !slugSep d)) from
            stripDash_of_head_ne c hcd _]
          rw [dropDashEnd_of_no_dash _ hwnd]
          simp [chunks, joinDash]
        · -- a separator run (and possibly more) follows the word
          have hr₂ : r₂.length < r.length := by
            have h1 := length_dropWhile_le (fun d => !slugSep d) r
            rw [hdw] at h1
            simp only [List.length_cons] at h1
            omega
          have hd : slugSep d = true := by
            have := dropWhile_head_false (fun d => !slugSep d) r d r₂ hdw
            simpa using this
          have hXc : collapseSep false (d :: r₂) =
              '-' :: collapseSep false (r₂.dropWhile slugSep) := by
            simp [collapseSep, hd, collapseSep_true]
          have hchd : chunks (d :: r₂) = chunks (r₂.dropWhile slugSep) := by
            rw [chunks_dropWhile_sep r₂]
            simp [chunks, hd]
          rw [hXc, hchd]
          rcases hl2 : r₂.dropWhile slugSep with _ | ⟨e, r₃⟩
          · -- trailing separator run: collapses to one trailing dash, stripped
            rw [show collapseSep false [] = ([] : List Char) from rfl]
            rw [stripDash_word_append _ _ (by simp) hwnd]
            rw [show ('-' :: ([] : List Char)) = ['-'] from rfl]
            rw [dropDashEnd_append_dash, dropDashEnd_of_no_dash _ hwnd]
            simp [chunks, joinDash]
          · -- another word follows
            have hlen : (e :: r₃).length ≤ n := by
              have h2 := length_dropWhile_le slugSep r₂
              rw [hl2] at h2
              simp only [List.length_cons] at h2 ⊢
              omega
            have he : slugSep e = false := dropWhile_head_false slugSep r₂ e r₃ hl2
            have hed : (e == '-') = false := ne_dash_of_not_sep e he
            have hY : collapseSep false (e :: r₃) = e :: collapseSep false r₃ := by
              simp [collapseSep, he]
            have hYne : dropDashEnd (collapseSep false (e :: r₃)) ≠ [] := by
              rw [hY]
              exact dropDashEnd_ne_nil e hed _
            have hIH := ih (e :: r₃) hlen
            have h2 : stripDash (collapseSep false (e :: r₃)) =
                dropDashEnd (collapseSep false (e :: r₃)) := by
              rw [hY]
              exact stripDash_of_head_ne e hed _
            have hchne : chunks (e :: r₃) ≠ [] := by
              simp [chunks, he]
            rw [stripDash_word_append _ _ (by simp) hwnd]
            rw [show ('-' :: collapseSep false (e :: r₃)) =
              ['-'] ++ collapseSep false (e :: r₃) from rfl]
            rw [← List.append_assoc]
            rw [dropDashEnd_append _ _ hYne]
            rw [← h2, hIH]
            rw [joinDash_cons_of_ne_nil _ _ hchne]
            simp

theorem stripDash_collapseSep (l : List Char) :
    stripDash (collapseSep false l) = joinDash (chunks l) :=
  stripDash_collapseSep_aux l.length l (Nat.le_refl _)

/-! ## C8 input trees -/

/-- Markup with exactly one level-2 heading, one paragraph and one unordered
list with three direct child items. -/
def c8Tree (hT pT a b c : String) : HtmlNode :=
  .elem "div" [.elem "h2" [.txt hT], .elem "p" [.txt pT],
    .elem "ul" [.elem "li" [.txt a], .elem "li" [.txt b], .elem "li" [.txt c]]]

/-- Markup with one ordered list with three direct child items. -/
def c8TreeOl (x y z : String) : HtmlNode :=
  .elem "div" [.elem "ol"
    [.elem "li" [.txt x], .elem "li" [.txt y], .elem "li" [.txt z]]]

/-- Markup whose unordered list has two direct `li` children and one non-`li`
wrapper containing a further `li`: only the direct children are taken. -/
def c8TreeNested : HtmlNode :=
  .elem "div" [.elem "ul"
    [.elem "li" [.txt "a"], .elem "div" [.elem "li" [.txt "x"]],
     .elem "li" [.txt "b"]]]

/-! ## Claim theorems -/

/-- C1 counterexample: the claim "every discovered URL is fetched at most
once over the whole run" is false on the code.  In the `runRefetch` crawl the
first fetch of URL "a" fails, "a" is then re-discovered from page "b",
re-enqueued, and fetched a second time — two fetch events for "a". -/
theorem C1_counterexample :
    ¬ (countFetchAll "a" (events runRefetch) ≤ 1) := by decide

/-- C1 (amended): during any crawl run every URL appears in the VisitedSet at
most once, and every URL is SUCCESSFULLY fetched at most once; only a URL
whose fetches so far all failed can be fetched again after re-discovery. -/
theorem C1_amended_dedup (O : AdvOracles) (mp fuel : Nat) (b : String) :
    (advRun O mp fuel b).visited.Nodup ∧
    ∀ url, (events (advRun O mp fuel b)).countP (isSuccessFetchOf url) ≤ 1 := by
  obtain ⟨hnd, hcnt, _⟩ := advRun_visitInv O mp fuel b
  refine ⟨hnd, fun url => ?_⟩
  rw [hcnt url]
  split <;> omega

/-- C2: for every crawl run (any oracles, any budget, any fuel) the page
indices of the final PageCollection are exactly `0, 1, 2, ...` in list order:
strictly increasing, gapless, and equal to acceptance order, whatever
dequeued tasks were skipped for fetch failure or duplicate suppression. -/
theorem C2_indices_gapless (O : AdvOracles) (mp fuel : Nat) (b : String) :
    (advRun O mp fuel b).pages.map (fun p => p.index) =
      List.range (advRun O mp fuel b).pages.length :=
  (advRun_pagesIndexInv O mp fuel b).1

/-- C3 counterexample: the claim "the URL is added to VisitedSet BEFORE the
fetch is performed" is false on the code: already in the one-page `runSingle`
crawl, the fetch of "s" happens while "s" is not yet marked visited. -/
theorem C3_counterexample :
    markedBeforeFetch [] (events runSingle) = false := by decide

/-- C3 (amended): the code marks a URL visited immediately AFTER its
successful fetch returns (and before extraction and link discovery); at the
moment any fetch starts, the fetched URL is never in the VisitedSet. -/
theorem C3_mark_after_fetch (O : AdvOracles) (mp fuel : Nat) (b : String) :
    fetchThenMark (events (advRun O mp fuel b)) = true ∧
    fetchUnvisited [] (events (advRun O mp fuel b)) = true :=
  ⟨fetchThenMark_eventsOf _, (advRun_unvisitedInv O mp fuel b).1⟩

/-- C4 counterexample: the claim "the inter-request delay is applied in every
iteration, including fetch failures" is false on the code: in `runNoDelay`
the failed fetch of "a" is immediately followed by the fetch of "b" with no
sleep in between. -/
theorem C4_counterexample :
    delayBeforeEveryNextFetch (events runNoDelay) = false := by decide

/-- C4 (amended): the fixed inter-request delay is applied before the next
dequeue only in iterations whose fetch succeeds (the page is accepted);
iterations whose fetch fails, or yields empty markup, proceed to the next
dequeue without the delay. -/
theorem C4_delay_on_success (O : AdvOracles) (mp fuel : Nat) (b : String) :
    delayAfterAcceptedFetch (events (advRun O mp fuel b)) = true :=
  delayAfterAcceptedFetch_eventsOf _

/-- C5: for a URL all of whose attempts fail, `fetch_page` makes exactly
`max_retries` attempts with a `2 ^ attempt`-second backoff between
consecutive attempts, then returns `None` (a failure value, not an
exception); and any URL with no truthy fetch in a crawl run is excluded from
the final PageCollection (the crawl goes on with the remaining tasks). -/
theorem C5_retry_and_skip (res : Nat → Option String) (m : Nat) (hm : 0 < m)
    (hres : ∀ k, k < m → res k = none) :
    fetch_page res m = (retryTrace m m 0, none) ∧
    ∀ (O : AdvOracles) (mp fuel : Nat) (b url : String),
      Ev.fetch url true ∉ events (advRun O mp fuel b) →
      url ∉ (advRun O mp fuel b).pages.map (fun p => p.url) := by
  refine ⟨fetch_page_allFail res m hm hres, ?_⟩
  intro O mp fuel b url hnf hmem
  obtain ⟨_, hcnt, hpv⟩ := advRun_visitInv O mp fuel b
  have hv := hpv url hmem
  have hc := hcnt url
  rw [if_pos hv] at hc
  apply hnf
  rw [mem_fetch_true_iff_countP, hc]
  omega

/-- C5 witness: with the default 3 retries and an oracle that always fails,
the trace is attempt 0, 1s backoff, attempt 1, 2s backoff, attempt 2, and
the result is `none`; in the concrete `oracleNoDelay` crawl the URL "a",
whose only fetch failed, is absent from the final PageCollection. -/
theorem C5_witness :
    (0 < 3) ∧
    fetch_page (fun _ => none) 3 =
      ([FEv.attempt 0, FEv.backoff 1, FEv.attempt 1, FEv.backoff 2,
        FEv.attempt 2], none) ∧
    "a" ∉ (advRun oracleNoDelay 10 10 "s").pages.map (fun p => p.url) := by
  have h := C5_retry_and_skip (fun _ => none) 3 (by decide) (fun k _ => rfl)
  refine ⟨by decide, ?_, ?_⟩
  · rw [h.1]
    rfl
  · exact h.2 oracleNoDelay 10 10 "s" "a" (by decide)

/-- C6 (code bug): a successfully fetched page whose markup is the EMPTY
string is treated as a fetch failure by `if not html: continue`
(scraper.py 301-303) and is silently dropped: it gets no index, no
PageCollection entry and no table-of-contents entry — contradicting the
claim that empty content still occupies a slot.  In contrast, non-empty
markup whose extraction yields zero content is accepted with an index and a
TOC entry, as the claim says. -/
theorem C6_empty_markup_dropped :
    oracleEmptyMarkup.fetchRes 0 = some "" ∧
    runEmptyMarkup.pages = [] ∧
    toc_entries runEmptyMarkup.pages = [] ∧
    runEmptyContent.pages = [⟨0, "root", "T", 0, ""⟩] ∧
    toc_entries runEmptyContent.pages = [(0, "T", "t")] :=
  ⟨rfl, by decide, by decide, by decide, by decide⟩

/-- C7: with seed "s" linking to "a" and "b", "a" linking to "c", and a page
budget of exactly 3, the accepted pages are s, a, b in that order ("c" is
not accepted): links are enqueued at the tail of the FIFO frontier, so all
depth-1 pages are accepted before the depth-2 page "c", which is still
queued when the budget is exhausted. -/
theorem C7_breadth_first_budget :
    runBfs.pages.map (fun p => p.url) = ["s", "a", "b"] ∧
    "c" ∉ runBfs.pages.map (fun p => p.url) ∧
    runBfs.pageCount = 3 ∧
    runBfs.toVisit.map (fun t => t.url) = ["c"] :=
  ⟨by decide, by decide, by decide, by decide⟩

/-- C8: markup with exactly one level-2 heading, one paragraph with
non-empty trimmed text, and one unordered list with three direct child items
normalizes to exactly 1 Heading, 1 Paragraph, and 3 ListItem blocks without
ordinal; ordered lists number their direct items from 1; and only the direct
child items of a list are taken. -/
theorem C8_normalize (hT pT a b c : String) (hp : pyStrip pT ≠ "") :
    content_to_markdown (c8Tree hT pT a b c) "" =
      [.heading 2 (pyStrip hT), .para (pyStrip pT), .item none (pyStrip a),
       .item none (pyStrip b), .item none (pyStrip c)] ∧
    (∀ x y z : String, content_to_markdown (c8TreeOl x y z) "" =
      [.item (some 1) (pyStrip x), .item (some 2) (pyStrip y),
       .item (some 3) (pyStrip z)]) ∧
    content_to_markdown c8TreeNested "" = [.item none "a", .item none "b"] := by
  refine ⟨?_, ?_, by decide⟩
  · simp [content_to_markdown, c8Tree, findAll, findAllAny, findAllList,
      findAllFrom, directChildren, getTextStrip, textOf, textOfList,
      List.range', headingTag, enumFrom, hp]
  · intro x y z
    simp [content_to_markdown, c8TreeOl, findAll, findAllAny, findAllList,
      findAllFrom, directChildren, getTextStrip, textOf, textOfList,
      List.range', headingTag, enumFrom]

/-- C8 witness: the normalization property at concrete markup. -/
theorem C8_witness :
    (pyStrip "Para" ≠ "") ∧
    content_to_markdown (c8Tree "Head" "Para" "i1" "i2" "i3") "" =
      [.heading 2 "Head", .para "Para",
       .item none "i1", .item none "i2", .item none "i3"] := by
  have h := C8_normalize "Head" "Para" "i1" "i2" "i3" (by decide)
  refine ⟨by decide, ?_⟩
  rw [h.1]
  decide

/-- C9 counterexample: the claim's description of the slug function removes
underscores (it keeps only letters, digits, whitespace, hyphen) and collapses
only whitespace runs; the code keeps underscores (Python `\w`) and collapses
hyphen runs too, so the two differ at "a_b--c" (code: "a_b-c", claim:
"ab--c"). -/
theorem C9_counterexample :
    slugify_advanced "a_b--c" ≠ slug_spec_C9 "a_b--c" := by decide

/-- C9 (amended): the slug of `s` is obtained by lower-casing, removing every
character outside {letters, digits, underscore, whitespace, hyphen},
collapsing every whitespace-or-hyphen run to a single hyphen and trimming
hyphens at both ends — equivalently, joining the maximal runs of kept
non-separator characters with single hyphens; it is a pure function and the
three scrapers use the identical function for TOC links and anchors. -/
theorem C9_slug_amended (s : String) :
    slugify_advanced s = slug_spec_amended s ∧
    slugify_scraper s = slugify_advanced s ∧
    slugify_simple s = slugify_advanced s := by
  refine ⟨?_, rfl, rfl⟩
  unfold slugify_advanced slug_spec_amended
  rw [stripDash_collapseSep]

/-- C10: a URL enters the VisitedSet exactly when a truthy fetch of it
occurred (a URL whose fetch fails is never added), every URL holding an
index in the PageCollection is in the VisitedSet (a failed URL occupies no
index), and — as the refetch run shows — a URL whose fetch failed is fetched
again when re-discovered from a later page. -/
theorem C10_failed_fetch_not_visited (O : AdvOracles) (mp fuel : Nat)
    (b url : String) :
    (url ∈ (advRun O mp fuel b).visited ↔
      Ev.fetch url true ∈ events (advRun O mp fuel b)) ∧
    (url ∈ (advRun O mp fuel b).pages.map (fun p => p.url) →
      url ∈ (advRun O mp fuel b).visited) ∧
    (Ev.fetch "a" false ∈ events runRefetch ∧
      Ev.fetch "a" true ∈ events runRefetch) := by
  obtain ⟨_, hcnt, hpv⟩ := advRun_visitInv O mp fuel b
  refine ⟨?_, hpv url, by decide, by decide⟩
  rw [mem_fetch_true_iff_countP, hcnt url]
  by_cases h : url ∈ (advRun O mp fuel b).visited
  · simp [h]
  · simp [h]

/-- C10 witness: in the refetch run, "s" holds an index, hence is visited. -/
theorem C10_witness :
    "s" ∈ (advRun oracleRefetch 10 10 "s").pages.map (fun p => p.url) ∧
    "s" ∈ (advRun oracleRefetch 10 10 "s").visited := by
  have h := C10_failed_fetch_not_visited oracleRefetch 10 10 "s" "s"
  exact ⟨by decide, h.2.1 (by decide)⟩
